import Mathlib

/-!
# Task Management API — shallow embedding

Embedding of `app/api/tasks.py`, `app/schemas/task.py` and `app/models/task.py`
of the MediVueTasks repository.

Modelling conventions:
* Calendar dates and timestamps are natural numbers (day / tick counts); only
  their ordering matters to the code.
* The relational store is a `DB` record holding the `tasks` table as a list in
  insertion order, the `tags` table as the list of (unique, normalized) tag
  names present, and the autoincrement counter for task ids.
* ORM attributes that the PATCH handler can set to an explicit JSON `null` via
  `setattr` are `Option`-valued on the in-memory `Task` row (the SQL predicate
  `Task.completed == c` is then `t.completed == some c`, matching SQL's
  treatment of NULL in comparisons).
* `Tag` rows carry only their normalized unique name here: the integer tag id
  is never observable through the API surface being verified, and
  `TaskResponse.from_orm_with_tags` exposes exactly the list of tag names, so
  a task's tag collection is the list of those names, in assignment order.
* The SQL `ORDER BY created_at DESC` carries no tiebreak in the source, so the
  page returned by the store is modelled relationally: any permutation of the
  filtered rows that is sorted by `created_at` descending is a possible engine
  ordering (`EngineOrdering`).  A concrete insertion sort (`sortByCreatedDesc`)
  witnesses that at least one such ordering always exists.
* Request-schema validation (`TaskCreate`, `TaskUpdate` plus the
  `validation_exception_handler` of `app/main.py`) is modelled as a function
  producing the `details` field-to-message list of the error envelope; the
  request is accepted exactly when that list is empty.  Message texts that the
  validation framework generates are abstracted; the one message written in
  the source (`due_date cannot be in the past`) is kept verbatim.
* `db.commit()` is fallible: `commitOK` checks the store constraints a write
  can violate — the NOT NULL columns of `tasks` (`title`, `priority`,
  `due_date`, `completed`) and the `task_tags` composite primary key, which
  rejects a tag collection holding the same tag twice.  A failing commit
  raises `IntegrityError`, which no handler of `app/main.py` catches, so the
  request ends as a generic 500 (`integrityError`) and persists nothing.
-/

namespace MediVue

/-- The whitespace characters removed by Python's `str.strip()` (ASCII
range; the strings this API normalizes are plain tag names). -/
def isStripChar (c : Char) : Bool :=
  c = ' ' || c = '\t' || c = '\n' || c = '\r' || c = '\x0b' || c = '\x0c'

/-- ASCII lowercasing as performed by Python's `str.lower()`. -/
def lowerChar (c : Char) : Char :=
  if 'A' ≤ c && c ≤ 'Z' then Char.ofNat (c.toNat + 32) else c

/-- Python `s.strip()` over the character sequence. -/
def stripStr (s : String) : String :=
  String.mk (((s.data.dropWhile isStripChar).reverse.dropWhile isStripChar).reverse)

/-- `name.strip().lower()` as applied by `get_or_create_tags` and the
`tags` query-parameter parser in `list_tasks`. -/
def normalizeTag (s : String) : String :=
  String.mk ((stripStr s).data.map lowerChar)

/-- Python `s.split(",")`: split at every comma, keeping empty pieces. -/
def splitCommaAux : List Char → List Char → List String
  | [], acc => [String.mk acc.reverse]
  | c :: rest, acc =>
    if c = ',' then String.mk acc.reverse :: splitCommaAux rest []
    else splitCommaAux rest (c :: acc)

/-- Python `s.split(",")` on a string. -/
def splitComma (s : String) : List String := splitCommaAux s.data []

/-- One row of the `tasks` table together with its tag-name collection
(`Task` in `app/models/task.py`). -/
structure Task where
  id : Nat
  title : Option String
  description : Option String
  priority : Option Int
  due_date : Option Nat
  completed : Option Bool
  is_deleted : Bool
  created_at : Nat
  updated_at : Nat
  tags : List String
deriving Repr, DecidableEq

/-- The relational store: tasks in insertion order, the set of tag names that
exist in the `tags` table, and the autoincrement counter for task ids. -/
structure DB where
  tasks : List Task
  tagNames : List String
  nextTaskId : Nat
deriving Repr, DecidableEq

/-- A freshly initialised store (autoincrement ids start at 1). -/
def emptyDB : DB := { tasks := [], tagNames := [], nextTaskId := 1 }

/-- The uniform error envelope `{"error": ..., "details": {...}}` produced by
the exception handlers in `app/main.py`. -/
structure ApiError where
  error : String
  details : List (String × String)
deriving Repr, DecidableEq

/-- Handler outcomes can be compared on concrete fixtures. -/
instance decEqExcept {ε α : Type} [DecidableEq ε] [DecidableEq α] :
    DecidableEq (Except ε α) := fun x y =>
  match x, y with
  | .error a, .error b =>
    if h : a = b then .isTrue (by rw [h])
    else .isFalse (fun hc => h (by injection hc))
  | .error _, .ok _ => .isFalse (fun hc => nomatch hc)
  | .ok _, .error _ => .isFalse (fun hc => nomatch hc)
  | .ok a, .ok b =>
    if h : a = b then .isTrue (by rw [h])
    else .isFalse (fun hc => h (by injection hc))

/-- The 404 payload raised by `get_task`, `update_task` and `delete_task`. -/
def notFoundError (id : Nat) : ApiError :=
  { error := "Not Found",
    details := [("task_id", "Task with id " ++ toString id ++ " not found")] }

/-- The store-side constraints `db.commit()` checks for a written row: the
`tasks` table's NOT NULL columns (`title`, `priority`, `due_date`,
`completed`; `description` is nullable — `app/models/task.py`) and the
`task_tags` composite primary key `(task_id, tag_id)`, which admits each tag
at most once in a task's collection, so a collection holding the same tag
twice is rejected. -/
def commitOK (t : Task) : Bool :=
  t.title.isSome && t.priority.isSome && t.due_date.isSome &&
  t.completed.isSome && decide t.tags.Nodup

/-- A commit that violates one of those constraints raises `IntegrityError`,
which no exception handler of `app/main.py` catches (it is not a
`ValueError`), so the request fails with a generic 500 and nothing is
persisted. -/
def integrityError : ApiError :=
  { error := "Internal Server Error", details := [] }

/-- `get_or_create_tags(db, tag_names)`: normalize each raw name, skip names
that are empty after normalization, insert a `tags`-table row on first sight
of a normalized name, and append the (possibly repeated) resolved tag to the
returned list — one entry per surviving input occurrence, exactly as the
Python loop appends `tag` per iteration.  Returns the updated `tags` table and
the resolved name list. -/
def get_or_create_tags (table : List String) (tag_names : List String) :
    List String × List String :=
  match tag_names with
  | [] => (table, [])
  | n :: rest =>
    let nm := normalizeTag n
    if nm = "" then
      get_or_create_tags table rest
    else
      let table1 := if nm ∈ table then table else table ++ [nm]
      let res := get_or_create_tags table1 rest
      (res.1, nm :: res.2)

/-- The body of `POST /tasks` after JSON decoding (`TaskCreate` fields). -/
structure TaskCreateInput where
  title : String
  description : Option String
  priority : Int
  due_date : Nat
  tags : Option (List String)
deriving Repr, DecidableEq

/-- Field-to-message `details` produced for a `TaskCreate` body by the schema
constraints (`title`: 1–200 chars, `priority`: 1–5, `due_date` not before
today) as flattened by `validation_exception_handler`.  Empty iff the body is
accepted. -/
def createValidationErrors (inp : TaskCreateInput) (today : Nat) :
    List (String × String) :=
  (if inp.title.length < 1 ∨ 200 < inp.title.length then
      [("title", "String length must be between 1 and 200")] else []) ++
  (if inp.priority < 1 ∨ 5 < inp.priority then
      [("priority", "Input must be between 1 and 5")] else []) ++
  (if inp.due_date < today then
      [("due_date", "Value error, due_date cannot be in the past")] else [])

/-- `create_task`, end to end: builds the row from the validated body,
resolves tags only when `task_data.tags` is truthy (neither absent nor the
empty list), assigns the next id and the server timestamps, and commits.  On
success it returns the new store and the materialized task (what
`TaskResponse.from_orm_with_tags` serialises); when the commit violates a
store constraint — here only possible through a tag collection repeating one
normalized name, which `get_or_create_tags` resolves to the same tag twice —
the commit raises and nothing is persisted. -/
def create_task (db : DB) (task_data : TaskCreateInput) (now : Nat) :
    Except ApiError (DB × Task) :=
  let resolved :=
    match task_data.tags with
    | none => (db.tagNames, [])
    | some l => if l.isEmpty then (db.tagNames, []) else get_or_create_tags db.tagNames l
  let t : Task :=
    { id := db.nextTaskId
      title := some task_data.title
      description := task_data.description
      priority := some task_data.priority
      due_date := some task_data.due_date
      completed := some false
      is_deleted := false
      created_at := now
      updated_at := now
      tags := resolved.2 }
  if commitOK t then
    .ok ({ tasks := db.tasks ++ [t], tagNames := resolved.1,
           nextTaskId := db.nextTaskId + 1 }, t)
  else .error integrityError

/-- Placeholder row used only as a `getD` default in concrete fixtures. -/
def dummyTask : Task :=
  { id := 0, title := none, description := none, priority := none,
    due_date := none, completed := none, is_deleted := false,
    created_at := 0, updated_at := 0, tags := [] }

/-- The committed store and task of a successful creation (fixtures below
only issue requests whose commit genuinely succeeds). -/
def createOk (db : DB) (task_data : TaskCreateInput) (now : Nat) :
    DB × Task :=
  (create_task db task_data now).toOption.getD (emptyDB, dummyTask)

/-- `get_task`: first row with the given id that is not soft-deleted,
else the 404 envelope. -/
def get_task (db : DB) (task_id : Nat) : Except ApiError Task :=
  match db.tasks.find? (fun t => t.id == task_id && !t.is_deleted) with
  | none => .error (notFoundError task_id)
  | some t => .ok t

/-- The body of `PATCH /tasks/{id}` (`TaskUpdate`): the outer `Option` is
field presence (pydantic's `exclude_unset`), the inner `Option` is an explicit
JSON `null`. -/
structure TaskUpdateInput where
  title : Option (Option String)
  description : Option (Option String)
  priority : Option (Option Int)
  due_date : Option (Option Nat)
  completed : Option (Option Bool)
  tags : Option (Option (List String))
deriving Repr, DecidableEq

/-- A `PATCH` body with every field absent. -/
def emptyUpdate : TaskUpdateInput :=
  { title := none, description := none, priority := none, due_date := none,
    completed := none, tags := none }

/-- `details` produced for a `TaskUpdate` body: each constraint applies only
when the field is present with a non-null value (the `Optional` annotations
let an explicit `null` through, and the `due_date` validator checks
`v is not None` first). -/
def updateValidationErrors (u : TaskUpdateInput) (today : Nat) :
    List (String × String) :=
  (match u.title with
   | some (some s) =>
     if s.length < 1 ∨ 200 < s.length then
       [("title", "String length must be between 1 and 200")] else []
   | _ => []) ++
  (match u.priority with
   | some (some p) =>
     if p < 1 ∨ 5 < p then [("priority", "Input must be between 1 and 5")] else []
   | _ => []) ++
  (match u.due_date with
   | some (some d) =>
     if d < today then [("due_date", "Value error, due_date cannot be in the past")] else []
   | _ => [])

/-- The `for field, value in update_data.items()` loop of `update_task`:
every present field except `tags` is assigned verbatim (`setattr`, including
explicit nulls); a present `tags` is applied only when non-null, through
`get_or_create_tags`; `updated_at` is refreshed by the ORM `onupdate` hook.
Returns the updated `tags` table and the updated row. -/
def applyUpdate (table : List String) (t : Task) (u : TaskUpdateInput)
    (now : Nat) : List String × Task :=
  let t1 := match u.title with | some v => { t with title := v } | none => t
  let t2 := match u.description with | some v => { t1 with description := v } | none => t1
  let t3 := match u.priority with | some v => { t2 with priority := v } | none => t2
  let t4 := match u.due_date with | some v => { t3 with due_date := v } | none => t3
  let t5 := match u.completed with | some v => { t4 with completed := v } | none => t4
  let res :=
    match u.tags with
    | some (some l) =>
      let r := get_or_create_tags table l
      (r.1, { t5 with tags := r.2 })
    | _ => (table, t5)
  (res.1, { res.2 with updated_at := now })

/-- Replace the first row satisfying `p` by the result of `f` (the row the
ORM query's `.first()` selects and the handler mutates); `none` when no row
matches.  `f` also returns the updated `tags` table. -/
def patchFirst (p : Task → Bool) (f : Task → List String × Task) :
    List Task → Option (List String × Task × List Task)
  | [] => none
  | t :: rest =>
    if p t then
      let r := f t
      some (r.1, r.2, r.2 :: rest)
    else
      (patchFirst p f rest).map (fun r => (r.1, r.2.1, t :: r.2.2))

/-- `update_task`, end to end: 404 unless a non-deleted row with the id
exists; otherwise apply the presence-aware merge to that row and commit.  On
success it returns the new store and the updated task; when the merged row
violates a store constraint (an explicit null written into a NOT NULL column,
or a replacement tag collection repeating one normalized name) the commit
raises `IntegrityError` and nothing is persisted. -/
def update_task (db : DB) (task_id : Nat) (task_data : TaskUpdateInput)
    (now : Nat) : Except ApiError (DB × Task) :=
  match patchFirst (fun t => t.id == task_id && !t.is_deleted)
      (fun t => applyUpdate db.tagNames t task_data now) db.tasks with
  | none => .error (notFoundError task_id)
  | some r =>
    if commitOK r.2.1 then
      .ok ({ tasks := r.2.2, tagNames := r.1, nextTaskId := db.nextTaskId },
        r.2.1)
    else .error integrityError

/-- `delete_task`: 404 unless a non-deleted row with the id exists; otherwise
set its `is_deleted` flag (the ORM `onupdate` hook refreshes `updated_at`). -/
def delete_task (db : DB) (task_id : Nat) (now : Nat) : Except ApiError DB :=
  match patchFirst (fun t => t.id == task_id && !t.is_deleted)
      (fun t => (db.tagNames, { t with is_deleted := true, updated_at := now }))
      db.tasks with
  | none => .error (notFoundError task_id)
  | some r => .ok { tasks := r.2.2, tagNames := db.tagNames, nextTaskId := db.nextTaskId }

/-- The parse `[t.strip().lower() for t in tags.split(",") if t.strip()]` of
the `tags` query parameter. -/
def tagFilterNames (tags : String) : List String :=
  (splitComma tags).filterMap
    (fun t => if stripStr t = "" then none else some (normalizeTag t))

/-- The filter pipeline of `list_tasks`: always exclude soft-deleted rows,
then the optional `completed` and `priority` equality predicates, then — when
the `tags` parameter is truthy and parses to a non-empty name list — keep the
tasks having any of the requested tag names.  The source's
`join(Task.tags)...in_(tag_names).distinct()` yields each matching task row
once, which over a row list is exactly this membership filter. -/
def filteredTasks (db : DB) (completed : Option Bool) (priority : Option Int)
    (tags : Option String) : List Task :=
  let q0 := db.tasks.filter (fun t => !t.is_deleted)
  let q1 := match completed with
    | none => q0
    | some c => q0.filter (fun t => t.completed == some c)
  let q2 := match priority with
    | none => q1
    | some p => q1.filter (fun t => t.priority == some p)
  match tags with
  | none => q2
  | some s =>
    if s = "" then q2
    else
      let tag_names := tagFilterNames s
      if tag_names = [] then q2
      else q2.filter (fun t => t.tags.any (fun n => tag_names.contains n))

/-- `ORDER BY created_at DESC`: sorted non-strictly descending by
`created_at`. -/
def SortedByCreatedDesc (l : List Task) : Prop :=
  l.Pairwise (fun a b => b.created_at ≤ a.created_at)

/-- A row order the store may return for the filtered query: any permutation
of the filtered rows sorted by `created_at` descending (the source specifies
no tiebreak). -/
def EngineOrdering (filtered l : List Task) : Prop :=
  l.Perm filtered ∧ SortedByCreatedDesc l

/-- `.offset(offset).limit(limit)` applied to an ordered row list. -/
def pageOf (l : List Task) (offset limit : Nat) : List Task :=
  (l.drop offset).take limit

/-- The observable outcome of `GET /tasks`: the pre-pagination `count()` and
the page cut from some engine ordering of the filtered rows. -/
def listTasksSpec (db : DB) (completed : Option Bool) (priority : Option Int)
    (tags : Option String) (limit offset : Nat) (result : Nat × List Task) :
    Prop :=
  ∃ l, EngineOrdering (filteredTasks db completed priority tags) l ∧
    result = ((filteredTasks db completed priority tags).length,
              pageOf l offset limit)

/-- Insert a task into a list sorted by `created_at` descending, after every
element with a `created_at` at least as large. -/
def insertDesc (t : Task) : List Task → List Task
  | [] => [t]
  | h :: rest =>
    if h.created_at < t.created_at then t :: h :: rest else h :: insertDesc t rest

/-- A concrete `created_at`-descending sort, witnessing one possible engine
ordering. -/
def sortByCreatedDesc : List Task → List Task
  | [] => []
  | h :: rest => insertDesc h (sortByCreatedDesc rest)

/-- `list_tasks` with the concrete sort: `(total, page)` with the count taken
before pagination. -/
def list_tasks (db : DB) (completed : Option Bool) (priority : Option Int)
    (tags : Option String) (limit offset : Nat) : Nat × List Task :=
  let f := filteredTasks db completed priority tags
  (f.length, pageOf (sortByCreatedDesc f) offset limit)

/-- One inbound request against the API surface. -/
inductive Op where
  | createOp (data : TaskCreateInput) (today now : Nat)
  | getOp (task_id : Nat)
  | listOp (completed : Option Bool) (priority : Option Int)
      (tags : Option String) (limit offset : Nat)
  | updateOp (task_id : Nat) (data : TaskUpdateInput) (today now : Nat)
  | deleteOp (task_id : Nat) (now : Nat)

/-- The store after one request: reads (`GET`) leave it unchanged, a body
failing schema validation is rejected before the handler runs, and a handler
that raises (404 or a commit-time integrity error) persists nothing. -/
def step (db : DB) : Op → DB
  | .createOp data today now =>
    if createValidationErrors data today = [] then
      match create_task db data now with
      | .ok r => r.1
      | .error _ => db
    else db
  | .getOp _ => db
  | .listOp _ _ _ _ _ => db
  | .updateOp task_id data today now =>
    if updateValidationErrors data today = [] then
      match update_task db task_id data now with
      | .ok r => r.1
      | .error _ => db
    else db
  | .deleteOp task_id now =>
    match delete_task db task_id now with
    | .ok db2 => db2
    | .error _ => db

/-- Well-formedness that every store reachable from `emptyDB` satisfies:
task ids stay below the autoincrement counter. -/
def WFdb (db : DB) : Prop := ∀ t ∈ db.tasks, t.id < db.nextTaskId

/-! ### Concrete fixtures used by witnesses and counterexamples -/

/-- A minimal valid creation body. -/
def mkCreate (title : String) : TaskCreateInput :=
  { title := title, description := none, priority := 3, due_date := 10,
    tags := none }

/-- Store holding the single task of the tag-OR example, tagged
`["work", "urgent"]`. -/
def dbTag : DB :=
  (createOk emptyDB { mkCreate "T" with tags := some ["work", "urgent"] } 0).1

/-- Store after creating `{title "A", description "B", priority 3}`. -/
def db3 : DB :=
  (createOk emptyDB
    { title := "A", description := some "B", priority := 3, due_date := 10,
      tags := none } 0).1

/-- The patch body `{"title": "C"}`. -/
def upd3 : TaskUpdateInput := { emptyUpdate with title := some (some "C") }

/-- Result of patching task 1 of `db3` with `upd3`. -/
def upd3res : DB × Task :=
  (update_task db3 1 upd3 1).toOption.getD (emptyDB, dummyTask)

/-- Store holding one freshly created task. -/
def dbOne : DB := (createOk emptyDB (mkCreate "T") 0).1

/-- `dbOne` after soft-deleting its task. -/
def dbOneDel : DB := (delete_task dbOne 1 2).toOption.getD emptyDB

/-- Creation body whose tag list repeats one normalized name. -/
def dupTagsInput : TaskCreateInput :=
  { mkCreate "T" with tags := some ["Work", "work"] }

/-- The creation body of the round-trip example: tags `["Work", " urgent "]`. -/
def normTagsInput : TaskCreateInput :=
  { mkCreate "T" with tags := some ["Work", " urgent "] }

/-- Store with five tasks all sharing `created_at = 0` (five creates within
one clock tick). -/
def db5 : DB :=
  (createOk (createOk (createOk (createOk
    (createOk emptyDB (mkCreate "T1") 0).1
    (mkCreate "T2") 0).1 (mkCreate "T3") 0).1 (mkCreate "T4") 0).1
    (mkCreate "T5") 0).1

/-- A title of a given length, for the boundary-validation inputs. -/
def mkTitle (n : Nat) : String := String.mk (List.replicate n 'x')

/-- Store with five tasks created at distinct clock ticks 1..5. -/
def db5d : DB :=
  (createOk (createOk (createOk (createOk
    (createOk emptyDB (mkCreate "T1") 1).1
    (mkCreate "T2") 2).1 (mkCreate "T3") 3).1 (mkCreate "T4") 4).1
    (mkCreate "T5") 5).1

/-- The patch body `{"tags": ["New", " UPDATED "]}`. -/
def upd9 : TaskUpdateInput :=
  { emptyUpdate with tags := some (some ["New", " UPDATED "]) }

/-- Result of patching task 1 of `dbTag` with `upd9`. -/
def upd9res : DB × Task :=
  (update_task dbTag 1 upd9 4).toOption.getD (emptyDB, dummyTask)

/-- The patch body `{"title": null}`. -/
def titleNullUpdate : TaskUpdateInput := { emptyUpdate with title := some none }

/-! ## Helper lemmas -/

lemma get_or_create_tags_snd (tag_names : List String) : ∀ table,
    (get_or_create_tags table tag_names).2 =
      (tag_names.map normalizeTag).filter (fun n => !(n == "")) := by
  induction tag_names with
  | nil => intro table; rfl
  | cons n rest ih =>
    intro table
    simp only [get_or_create_tags, List.map_cons, List.filter_cons]
    by_cases h : normalizeTag n = ""
    · simp [h, ih]
    · simp [h, ih]

lemma patchFirst_eq_some {p : Task → Bool} {f : Task → List String × Task}
    {l : List Task} {tb : List String} {t' : Task} {l' : List Task}
    (h : patchFirst p f l = some (tb, t', l')) :
    ∃ l₁ told l₂, l = l₁ ++ told :: l₂ ∧ (∀ x ∈ l₁, p x = false) ∧
      p told = true ∧ f told = (tb, t') ∧ l' = l₁ ++ t' :: l₂ := by
  induction l generalizing tb t' l' with
  | nil => simp [patchFirst] at h
  | cons a rest ih =>
    by_cases hp : p a = true
    · simp only [patchFirst, hp, if_true, Option.some.injEq, Prod.mk.injEq] at h
      refine ⟨[], a, rest, rfl, by simp, hp, ?_, by simp [← h.2.2, h.2.1]⟩
      obtain ⟨h1, h2, -⟩ := h
      rw [← h1, ← h2]
    · simp only [patchFirst, hp, Bool.false_eq_true, if_false] at h
      rw [Option.map_eq_some'] at h
      obtain ⟨⟨tb0, t0, l0⟩, hrec, heq⟩ := h
      simp only [Prod.mk.injEq] at heq
      obtain ⟨l₁, told, l₂, hl, hfirst, hpt, hft, hl'⟩ := ih hrec
      refine ⟨a :: l₁, told, l₂, by simp [hl], ?_, hpt, ?_, ?_⟩
      · intro x hx
        rcases List.mem_cons.mp hx with rfl | hx
        · simpa using hp
        · exact hfirst x hx
      · rw [hft]; exact Prod.ext_iff.mpr ⟨heq.1, heq.2.1⟩
      · simp [← heq.2.2, hl', heq.2.1]

lemma patchFirst_eq_none {p : Task → Bool} {f : Task → List String × Task}
    {l : List Task} :
    patchFirst p f l = none ↔ ∀ x ∈ l, p x = false := by
  induction l with
  | nil => simp [patchFirst]
  | cons a rest ih =>
    by_cases hp : p a
    · simp [patchFirst, hp]
    · simp [patchFirst, hp, ih, Option.map_eq_none']

lemma update_task_ok {db : DB} {task_id : Nat} {u : TaskUpdateInput} {now : Nat}
    {db' : DB} {t' : Task}
    (h : update_task db task_id u now = Except.ok (db', t')) :
    ∃ l₁ told l₂, db.tasks = l₁ ++ told :: l₂ ∧ told.id = task_id ∧
      told.is_deleted = false ∧ t' = (applyUpdate db.tagNames told u now).2 ∧
      db'.tasks = l₁ ++ t' :: l₂ := by
  unfold update_task at h
  cases hp : patchFirst (fun t => t.id == task_id && !t.is_deleted)
      (fun t => applyUpdate db.tagNames t u now) db.tasks with
  | none => rw [hp] at h; exact absurd h (by simp)
  | some r =>
    rw [hp] at h
    obtain ⟨tb0, t0, l0⟩ := r
    by_cases hc : commitOK t0 = true
    · simp only [hc, if_true, Except.ok.injEq, Prod.mk.injEq] at h
      obtain ⟨l₁, told, l₂, hl, _, hpt, hft, hl'⟩ := patchFirst_eq_some hp
      simp only [Bool.and_eq_true, beq_iff_eq, Bool.not_eq_eq_eq_not,
        Bool.not_true] at hpt
      have ht0 : (applyUpdate db.tagNames told u now).2 = t0 :=
        congrArg Prod.snd hft
      refine ⟨l₁, told, l₂, hl, hpt.1, by simpa using hpt.2, ?_, ?_⟩
      · rw [ht0, h.2]
      · rw [← h.1]
        simp [hl', h.2]
    · rw [Bool.not_eq_true] at hc
      simp only [hc, Bool.false_eq_true, if_false] at h
      exact absurd h (by simp)

lemma update_task_ok_mem {db : DB} {task_id : Nat} {u : TaskUpdateInput}
    {now : Nat} {db' : DB} {t' : Task}
    (h : update_task db task_id u now = Except.ok (db', t')) :
    ∃ told, told ∈ db.tasks ∧ told.id = task_id ∧ told.is_deleted = false ∧
      t' = (applyUpdate db.tagNames told u now).2 := by
  obtain ⟨l₁, told, l₂, hl, h1, h2, h3, -⟩ := update_task_ok h
  exact ⟨told, by rw [hl]; simp, h1, h2, h3⟩

lemma create_task_ok {db : DB} {data : TaskCreateInput} {now : Nat}
    {db2 : DB} {t : Task}
    (h : create_task db data now = Except.ok (db2, t)) :
    db2.tasks = db.tasks ++ [t] ∧ t.id = db.nextTaskId ∧ commitOK t = true := by
  simp only [create_task] at h
  split at h
  · next hc =>
    simp only [Except.ok.injEq, Prod.mk.injEq] at h
    obtain ⟨hdb, ht⟩ := h
    refine ⟨by rw [← hdb, ← ht], by rw [← ht], by rw [← ht]; exact hc⟩
  · exact absurd h (by simp)

lemma delete_task_ok {db : DB} {task_id now : Nat} {db' : DB}
    (h : delete_task db task_id now = Except.ok db') :
    ∃ l₁ told l₂, db.tasks = l₁ ++ told :: l₂ ∧ told.id = task_id ∧
      told.is_deleted = false ∧
      db'.tasks = l₁ ++ { told with is_deleted := true, updated_at := now } :: l₂ := by
  unfold delete_task at h
  cases hp : patchFirst (fun t => t.id == task_id && !t.is_deleted)
      (fun t => (db.tagNames, { t with is_deleted := true, updated_at := now }))
      db.tasks with
  | none => rw [hp] at h; exact absurd h (by simp)
  | some r =>
    rw [hp] at h
    obtain ⟨tb0, t0, l0⟩ := r
    simp only [Except.ok.injEq] at h
    obtain ⟨l₁, told, l₂, hl, _, hpt, hft, hl'⟩ := patchFirst_eq_some hp
    simp only [Bool.and_eq_true, beq_iff_eq, Bool.not_eq_eq_eq_not,
      Bool.not_true] at hpt
    have ht0 : { told with is_deleted := true, updated_at := now } = t0 :=
      congrArg Prod.snd hft
    refine ⟨l₁, told, l₂, hl, hpt.1, by simpa using hpt.2, ?_⟩
    rw [← h, ht0]
    simp [hl']

lemma applyUpdate_spec (table : List String) (t : Task) (u : TaskUpdateInput)
    (now : Nat) :
    (applyUpdate table t u now).2 =
      { id := t.id
        title := match u.title with | some v => v | none => t.title
        description := match u.description with | some v => v | none => t.description
        priority := match u.priority with | some v => v | none => t.priority
        due_date := match u.due_date with | some v => v | none => t.due_date
        completed := match u.completed with | some v => v | none => t.completed
        is_deleted := t.is_deleted
        created_at := t.created_at
        updated_at := now
        tags := match u.tags with
                | some (some l) => (get_or_create_tags table l).2
                | _ => t.tags } := by
  obtain ⟨a, b, c, d, e, f⟩ := u
  cases a <;> cases b <;> cases c <;> cases d <;> cases e <;>
    rcases f with _ | (_ | _) <;> rfl

lemma insertDesc_perm (t : Task) (l : List Task) :
    (insertDesc t l).Perm (t :: l) := by
  induction l with
  | nil => exact List.Perm.refl _
  | cons h rest ih =>
    unfold insertDesc
    split
    · exact List.Perm.refl _
    · exact (ih.cons h).trans (List.Perm.swap t h rest)

lemma mem_insertDesc {x t : Task} {l : List Task} :
    x ∈ insertDesc t l ↔ x = t ∨ x ∈ l := by
  rw [(insertDesc_perm t l).mem_iff, List.mem_cons]

lemma insertDesc_sorted (t : Task) {l : List Task}
    (h : SortedByCreatedDesc l) : SortedByCreatedDesc (insertDesc t l) := by
  induction l with
  | nil => simp [insertDesc, SortedByCreatedDesc]
  | cons a rest ih =>
    obtain ⟨ha, hrest⟩ := List.pairwise_cons.mp h
    unfold insertDesc
    split
    · next hlt =>
      refine List.pairwise_cons.mpr ⟨?_, h⟩
      intro b hb
      rcases List.mem_cons.mp hb with rfl | hb
      · exact Nat.le_of_lt hlt
      · exact (ha b hb).trans (Nat.le_of_lt hlt)
    · next hge =>
      refine List.pairwise_cons.mpr ⟨?_, ih hrest⟩
      intro b hb
      rcases mem_insertDesc.mp hb with rfl | hb
      · exact Nat.le_of_not_lt hge
      · exact ha b hb

lemma sortByCreatedDesc_perm (l : List Task) :
    (sortByCreatedDesc l).Perm l := by
  induction l with
  | nil => exact List.Perm.refl _
  | cons a rest ih => exact (insertDesc_perm a _).trans (ih.cons a)

lemma sortByCreatedDesc_sorted (l : List Task) :
    SortedByCreatedDesc (sortByCreatedDesc l) := by
  induction l with
  | nil => simp [sortByCreatedDesc, SortedByCreatedDesc]
  | cons a rest ih => exact insertDesc_sorted a ih

lemma engineOrdering_sort (l : List Task) :
    EngineOrdering l (sortByCreatedDesc l) :=
  ⟨sortByCreatedDesc_perm l, sortByCreatedDesc_sorted l⟩

lemma list_tasks_meets_spec (db : DB) (c : Option Bool) (p : Option Int)
    (tg : Option String) (limit offset : Nat) :
    listTasksSpec db c p tg limit offset (list_tasks db c p tg limit offset) :=
  ⟨sortByCreatedDesc (filteredTasks db c p tg),
    engineOrdering_sort _, rfl⟩

lemma sorted_perm_eq {l₁ l₂ : List Task} (hp : l₁.Perm l₂)
    (h1 : SortedByCreatedDesc l₁) (h2 : SortedByCreatedDesc l₂)
    (hnd : (l₁.map Task.created_at).Nodup) : l₁ = l₂ := by
  induction l₁ generalizing l₂ with
  | nil => exact hp.nil_eq
  | cons a t₁ ih =>
    cases l₂ with
    | nil => exact absurd hp.symm.nil_eq (by simp)
    | cons b t₂ =>
      have ha2 : a ∈ b :: t₂ := hp.mem_iff.mp (List.mem_cons_self a t₁)
      have hb1 : b ∈ a :: t₁ := hp.mem_iff.mpr (List.mem_cons_self b t₂)
      have hab : a = b := by
        by_contra hne
        have ha2' : a ∈ t₂ := by
          rcases List.mem_cons.mp ha2 with h | h
          · exact absurd h hne
          · exact h
        have hb1' : b ∈ t₁ := by
          rcases List.mem_cons.mp hb1 with h | h
          · exact absurd h.symm hne
          · exact h
        have hba : b.created_at ≤ a.created_at :=
          (List.pairwise_cons.mp h1).1 b hb1'
        have hab' : a.created_at ≤ b.created_at :=
          (List.pairwise_cons.mp h2).1 a ha2'
        have hkey : a.created_at = b.created_at := Nat.le_antisymm hab' hba
        exact (List.nodup_cons.mp hnd).1
          (hkey ▸ List.mem_map_of_mem Task.created_at hb1')
      subst hab
      rw [ih hp.cons_inv (List.pairwise_cons.mp h1).2
        (List.pairwise_cons.mp h2).2 (List.nodup_cons.mp hnd).2]

lemma filteredTasks_sublist (db : DB) (c : Option Bool) (p : Option Int)
    (tg : Option String) :
    (filteredTasks db c p tg).Sublist (db.tasks.filter (fun t => !t.is_deleted)) := by
  unfold filteredTasks
  cases c <;> cases p <;> cases tg <;>
    simp only [] <;>
    repeat
      first
      | exact List.Sublist.refl _
      | exact List.filter_sublist _
      | refine (List.filter_sublist _).trans ?_
      | split

lemma mem_filteredTasks {db : DB} {c : Option Bool} {p : Option Int}
    {tg : Option String} {t : Task} (h : t ∈ filteredTasks db c p tg) :
    t ∈ db.tasks ∧ t.is_deleted = false := by
  have := (filteredTasks_sublist db c p tg).mem h
  have hm := List.mem_filter.mp this
  exact ⟨hm.1, by simpa using hm.2⟩


/-! ## Claims -/

/-- **C1**: every list request returns `(total, page)` where `total` counts
all non-deleted tasks matching the filters ignoring `limit`/`offset`, and the
page holds at most `limit` tasks taken from position `offset` of the filtered
ordering; when `offset ≥ total` the page is empty and the operation still
succeeds (a result always exists). -/
theorem list_pagination_contract (db : DB) (c : Option Bool) (p : Option Int)
    (tg : Option String) (limit offset : Nat) :
    listTasksSpec db c p tg limit offset (list_tasks db c p tg limit offset) ∧
    ∀ total page, listTasksSpec db c p tg limit offset (total, page) →
      total = (filteredTasks db c p tg).length ∧
      page.length ≤ limit ∧
      (∀ t ∈ page, t ∈ filteredTasks db c p tg) ∧
      (total ≤ offset → page = []) := by
  refine ⟨list_tasks_meets_spec db c p tg limit offset, ?_⟩
  rintro total page ⟨l, ⟨hperm, -⟩, heq⟩
  simp only [Prod.mk.injEq] at heq
  obtain ⟨htot, hpage⟩ := heq
  subst htot hpage
  refine ⟨rfl, List.length_take_le _ _, ?_, ?_⟩
  · intro t ht
    exact hperm.mem_iff.mp
      (List.mem_of_mem_drop (List.mem_of_mem_take ht))
  · intro hoff
    have : l.length ≤ offset := by rw [hperm.length_eq]; exact hoff
    simp [pageOf, List.drop_eq_nil_of_le this]

/-- Witness: on a one-task store with `offset = 5 ≥ total = 1`, the page the
contract yields is empty. -/
theorem list_pagination_contract_witness :
    (list_tasks dbOne none none none 10 5).2 = [] :=
  ((list_pagination_contract dbOne none none none 10 5).2
    (list_tasks dbOne none none none 10 5).1
    (list_tasks dbOne none none none 10 5).2
    (list_tasks_meets_spec dbOne none none none 10 5)).2.2.2 (by decide)

/-- **C2**: with a tags filter active, a task matches iff it carries any one
of the requested normalized tag names, combined by logical AND with the
completed and priority filters; every task is counted at most as often as it
occurs as a row, and the one task tagged `["work","urgent"]` listed with
`tags=work,urgent` yields `total = 1`. -/
theorem tag_filter_or_no_double_count (db : DB) (c : Option Bool)
    (p : Option Int) (s : String) :
    (s ≠ "" → tagFilterNames s ≠ [] →
      ∀ t, t ∈ filteredTasks db c p (some s) ↔
        (t ∈ db.tasks ∧ t.is_deleted = false ∧
          (∀ b, c = some b → t.completed = some b) ∧
          (∀ q, p = some q → t.priority = some q) ∧
          ∃ n ∈ t.tags, n ∈ tagFilterNames s)) ∧
    (∀ t, (filteredTasks db c p (some s)).count t ≤ db.tasks.count t) ∧
    (list_tasks dbTag none none (some "work,urgent") 10 0).1 = 1 := by
  refine ⟨?_, ?_, by decide⟩
  · intro hs hn t
    simp only [filteredTasks, if_neg hs, if_neg hn]
    cases c <;> cases p <;>
      simp [List.mem_filter, List.any_eq_true, and_assoc] <;>
      tauto
  · intro t
    exact ((filteredTasks_sublist db c p (some s)).trans
      (List.filter_sublist _)).count_le t

/-- Witness: the tagged task of the example store does match its own filter,
and the example total is 1. -/
theorem tag_filter_or_no_double_count_witness :
    ((createOk emptyDB { mkCreate "T" with tags := some ["work", "urgent"] } 0).2
        ∈ filteredTasks dbTag none none (some "work,urgent")) ∧
    (list_tasks dbTag none none (some "work,urgent") 10 0).1 = 1 := by
  constructor
  · refine ((tag_filter_or_no_double_count dbTag none none "work,urgent").1
      (by decide) (by decide) _).mpr
      ⟨by decide, by decide, ?_, ?_, by decide⟩
    · exact fun b h => nomatch h
    · exact fun q h => nomatch h
  · exact (tag_filter_or_no_double_count dbTag none none "work,urgent").2.2


/-- **C3**: a partial update modifies only the fields explicitly present in
the request body; every absent field keeps its previous value.  Concretely:
after creating `{title "A", description "B", priority 3}` and patching only
`{title "C"}`, the fetched task shows description `"B"`, priority `3` and
title `"C"`. -/
theorem partial_update_frame (db : DB) (task_id : Nat) (u : TaskUpdateInput)
    (now : Nat) (db2 : DB) (t2 : Task)
    (h : update_task db task_id u now = Except.ok (db2, t2)) :
    (∃ told, told ∈ db.tasks ∧ told.id = task_id ∧ told.is_deleted = false ∧
      t2.id = told.id ∧ t2.is_deleted = told.is_deleted ∧
      t2.created_at = told.created_at ∧
      (u.title = none → t2.title = told.title) ∧
      (u.description = none → t2.description = told.description) ∧
      (u.priority = none → t2.priority = told.priority) ∧
      (u.due_date = none → t2.due_date = told.due_date) ∧
      (u.completed = none → t2.completed = told.completed) ∧
      (u.tags = none → t2.tags = told.tags) ∧
      (∀ v, u.title = some v → t2.title = v) ∧
      (∀ v, u.description = some v → t2.description = v) ∧
      (∀ v, u.priority = some v → t2.priority = v) ∧
      (∀ v, u.due_date = some v → t2.due_date = v) ∧
      (∀ v, u.completed = some v → t2.completed = v)) ∧
    (get_task upd3res.1 1 = Except.ok upd3res.2 ∧
      upd3res.2.title = some "C" ∧ upd3res.2.description = some "B" ∧
      upd3res.2.priority = some 3) := by
  obtain ⟨told, hmem, hid, hdel, ht2⟩ := update_task_ok_mem h
  subst ht2
  simp only [applyUpdate_spec]
  exact ⟨⟨told, hmem, hid, hdel, rfl, rfl, rfl,
    fun hh => by simp [hh], fun hh => by simp [hh], fun hh => by simp [hh],
    fun hh => by simp [hh], fun hh => by simp [hh], fun hh => by simp [hh],
    fun v hh => by simp [hh], fun v hh => by simp [hh],
    fun v hh => by simp [hh], fun v hh => by simp [hh],
    fun v hh => by simp [hh]⟩,
    by decide, by decide, by decide, by decide⟩

/-- Witness: the concrete patch of `{title "C"}` on `db3` satisfies the frame
contract. -/
theorem partial_update_frame_witness :
    (update_task db3 1 upd3 1 = Except.ok (upd3res.1, upd3res.2)) ∧
    (upd3res.2.title = some "C" ∧ upd3res.2.description = some "B" ∧
      upd3res.2.priority = some 3) := by
  refine ⟨by decide, ?_⟩
  exact ((partial_update_frame db3 1 upd3 1 upd3res.1 upd3res.2
    (by decide)).2).2

/-- **C9**: in a partial update, an explicit `tags: null` leaves the tag set
unchanged (treated like an omitted field), an explicit `tags: []` replaces
the tag set with the empty set, and any non-null tag list fully replaces the
previous tag set with the normalized names. -/
theorem update_tags_null_vs_empty (db : DB) (task_id : Nat)
    (u : TaskUpdateInput) (now : Nat) (db2 : DB) (t2 : Task)
    (h : update_task db task_id u now = Except.ok (db2, t2)) :
    ∃ told, told ∈ db.tasks ∧ told.id = task_id ∧ told.is_deleted = false ∧
      (u.tags = some none → t2.tags = told.tags) ∧
      (u.tags = some (some []) → t2.tags = []) ∧
      (∀ l, u.tags = some (some l) →
        t2.tags = (l.map normalizeTag).filter (fun n => !(n == ""))) := by
  obtain ⟨told, hmem, hid, hdel, ht2⟩ := update_task_ok_mem h
  subst ht2
  simp only [applyUpdate_spec]
  exact ⟨told, hmem, hid, hdel, fun hh => by simp [hh],
    fun hh => by simp [hh, get_or_create_tags_snd],
    fun l hh => by simp [hh, get_or_create_tags_snd]⟩

/-- Witness: patching the tagged task with `{"tags": ["New", " UPDATED "]}`
satisfies the replacement contract. -/
theorem update_tags_null_vs_empty_witness :
    (update_task dbTag 1 upd9 4 = Except.ok (upd9res.1, upd9res.2)) ∧
    ∃ told, told ∈ dbTag.tasks ∧ told.id = 1 ∧ told.is_deleted = false ∧
      (upd9.tags = some none → upd9res.2.tags = told.tags) ∧
      (upd9.tags = some (some []) → upd9res.2.tags = []) ∧
      (∀ l, upd9.tags = some (some l) →
        upd9res.2.tags = (l.map normalizeTag).filter (fun n => !(n == ""))) :=
  ⟨by decide,
    update_tags_null_vs_empty dbTag 1 upd9 4 upd9res.1 upd9res.2 (by decide)⟩

/-- **C10**: a PATCH body that explicitly sets `title` to null passes schema
validation for every current date (the 1–200 length constraint applies only
to string values), and the update handler then assigns null to the task's
title field; the title-required constraint is never surfaced as a validation
failure — addressed to a live task, the request instead dies at commit with
the store's integrity error, because `tasks.title` is a NOT NULL column. -/
theorem title_null_not_validated (db : DB) (task_id now today : Nat)
    (table : List String) (t : Task) :
    updateValidationErrors titleNullUpdate today = [] ∧
    (applyUpdate table t titleNullUpdate now).2.title = none ∧
    ((∃ told ∈ db.tasks, told.id = task_id ∧ told.is_deleted = false) →
      update_task db task_id titleNullUpdate now =
        Except.error integrityError) := by
  refine ⟨rfl, by simp [applyUpdate_spec, titleNullUpdate, emptyUpdate], ?_⟩
  rintro ⟨told, hmem, hid, hdel⟩
  unfold update_task
  cases hp : patchFirst (fun t => t.id == task_id && !t.is_deleted)
      (fun t => applyUpdate db.tagNames t titleNullUpdate now) db.tasks with
  | none =>
    exfalso
    have := patchFirst_eq_none.mp hp told hmem
    simp [hid, hdel] at this
  | some r =>
    obtain ⟨tb0, t0, l0⟩ := r
    obtain ⟨l₁, told2, l₂, -, -, -, hft, -⟩ := patchFirst_eq_some hp
    have ht0 : t0 = (applyUpdate db.tagNames told2 titleNullUpdate now).2 :=
      (congrArg Prod.snd hft).symm
    have htitle : t0.title = none := by
      rw [ht0, applyUpdate_spec]
      simp [titleNullUpdate, emptyUpdate]
    have hcom : commitOK t0 = false := by
      simp [commitOK, htitle]
    simp [hcom]

/-- Witness: `{"title": null}` against the one-task store — empty validation
details, null assigned by the merge, integrity error at commit. -/
theorem title_null_not_validated_witness :
    (∃ told ∈ dbOne.tasks, told.id = 1 ∧ told.is_deleted = false) ∧
    updateValidationErrors titleNullUpdate 0 = [] ∧
    (applyUpdate [] dummyTask titleNullUpdate 3).2.title = none ∧
    update_task dbOne 1 titleNullUpdate 3 = Except.error integrityError := by
  refine ⟨by decide, (title_null_not_validated dbOne 1 3 0 [] dummyTask).1,
    (title_null_not_validated dbOne 1 3 0 [] dummyTask).2.1,
    (title_null_not_validated dbOne 1 3 0 [] dummyTask).2.2 (by decide)⟩

/-- **C4**: after a successful soft delete, a GET on the id is not-found, the
task is excluded from every list page and from the list total, and a second
DELETE on the same id is not-found rather than a success. -/
theorem soft_delete_terminal (db : DB) (task_id now : Nat) (db2 : DB)
    (hnodup : (db.tasks.map Task.id).Nodup)
    (hdel : delete_task db task_id now = Except.ok db2) :
    get_task db2 task_id = Except.error (notFoundError task_id) ∧
    (∀ c p tg t, t ∈ filteredTasks db2 c p tg → t.id ≠ task_id) ∧
    (∀ c p tg limit offset total page,
      listTasksSpec db2 c p tg limit offset (total, page) →
      total = (filteredTasks db2 c p tg).length ∧
      ∀ t ∈ page, t.id ≠ task_id) ∧
    delete_task db2 task_id now = Except.error (notFoundError task_id) := by
  obtain ⟨l₁, told, l₂, hl, hid, hnd, htasks⟩ := delete_task_ok hdel
  have hmid : told.id ∉ List.map Task.id l₁ ++ List.map Task.id l₂ := by
    rw [hl] at hnodup
    have hn2 : (List.map Task.id l₁ ++ told.id :: List.map Task.id l₂).Nodup := by
      simpa using hnodup
    exact (List.nodup_cons.mp (List.nodup_middle.mp hn2)).1
  have hkey : ∀ t ∈ db2.tasks, (t.id == task_id && !t.is_deleted) = false := by
    intro t ht
    rw [htasks] at ht
    rcases List.mem_append.mp ht with h1 | h2
    · have hne : t.id ≠ task_id := by
        intro hc
        apply hmid
        apply List.mem_append_left
        have := List.mem_map_of_mem Task.id h1
        rwa [hc, ← hid] at this
      simp [hne]
    · rcases List.mem_cons.mp h2 with rfl | h3
      · simp
      · have hne : t.id ≠ task_id := by
          intro hc
          apply hmid
          apply List.mem_append_right
          have := List.mem_map_of_mem Task.id h3
          rwa [hc, ← hid] at this
        simp [hne]
  have hfind : db2.tasks.find? (fun t => t.id == task_id && !t.is_deleted)
      = none :=
    List.find?_eq_none.mpr (fun x hx => by simp [hkey x hx])
  have hfilter : ∀ c p tg t, t ∈ filteredTasks db2 c p tg → t.id ≠ task_id := by
    intro c p tg t ht hc
    obtain ⟨hmem, hdel2⟩ := mem_filteredTasks ht
    have := hkey t hmem
    rw [hc, hdel2] at this
    simp at this
  refine ⟨?_, hfilter, ?_, ?_⟩
  · unfold get_task
    rw [hfind]
  · rintro c p tg limit offset total page ⟨l, ⟨hperm, -⟩, heq⟩
    simp only [Prod.mk.injEq] at heq
    refine ⟨heq.1, ?_⟩
    intro t ht
    refine hfilter c p tg t ?_
    rw [heq.2] at ht
    exact hperm.mem_iff.mp (List.mem_of_mem_drop (List.mem_of_mem_take ht))
  · unfold delete_task
    rw [patchFirst_eq_none.mpr hkey]

/-- Witness: the deleted one-task store answers 404 on GET and on a second
DELETE. -/
theorem soft_delete_terminal_witness :
    ((dbOne.tasks.map Task.id).Nodup ∧
      delete_task dbOne 1 2 = Except.ok dbOneDel) ∧
    get_task dbOneDel 1 = Except.error (notFoundError 1) ∧
    delete_task dbOneDel 1 2 = Except.error (notFoundError 1) := by
  refine ⟨⟨by decide, by decide⟩, ?_, ?_⟩
  · exact (soft_delete_terminal dbOne 1 2 dbOneDel (by decide) (by decide)).1
  · exact
      (soft_delete_terminal dbOne 1 2 dbOneDel (by decide) (by decide)).2.2.2

/-- **C5**: for every create request whose commit succeeds, each supplied tag
name is trimmed and lowercased before lookup-or-create, names empty after
normalization are dropped, and the created task carries exactly one tag per
distinct normalized name: its tag list is duplicate-free and holds precisely
the non-empty normalized input names.  A request repeating one normalized
name (`["Work", "work"]`) never creates a task — its commit violates the
`task_tags` primary key and fails with the integrity error — and the example
`["Work", " urgent "]` round-trips to exactly `["work", "urgent"]`. -/
theorem tag_roundtrip_normalized (db : DB) (data : TaskCreateInput)
    (now : Nat) (l : List String) (db2 : DB) (t : Task)
    (hl : data.tags = some l) (hne : l ≠ [])
    (h : create_task db data now = Except.ok (db2, t)) :
    (t.tags = (l.map normalizeTag).filter (fun n => !(n == "")) ∧
      t.tags.Nodup ∧
      (∀ n, n ∈ t.tags ↔ n ∈ l.map normalizeTag ∧ n ≠ "")) ∧
    (create_task emptyDB dupTagsInput 0 = Except.error integrityError ∧
      get_task (createOk emptyDB normTagsInput 0).1 1 =
        Except.ok (createOk emptyDB normTagsInput 0).2 ∧
      (createOk emptyDB normTagsInput 0).2.tags = ["work", "urgent"]) := by
  refine ⟨?_, by decide, by decide, by decide⟩
  have hni : l.isEmpty = false := by
    rw [Bool.eq_false_iff]
    simp [List.isEmpty_iff, hne]
  simp only [create_task, hl, hni, Bool.false_eq_true, if_false] at h
  split at h
  · next hc =>
    simp only [Except.ok.injEq, Prod.mk.injEq] at h
    obtain ⟨-, ht⟩ := h
    have htags : t.tags = (l.map normalizeTag).filter (fun n => !(n == "")) := by
      rw [← ht]
      exact get_or_create_tags_snd l db.tagNames
    have hnd : t.tags.Nodup := by
      rw [← ht]
      simp only [commitOK, Bool.and_eq_true] at hc
      exact of_decide_eq_true hc.2
    refine ⟨htags, hnd, ?_⟩
    intro n
    simp [htags, List.mem_filter]
  · exact absurd h (by simp)

/-- Witness: the round-trip example is a genuine successful commit. -/
theorem tag_roundtrip_normalized_witness :
    (normTagsInput.tags = some ["Work", " urgent "] ∧
      (["Work", " urgent "] : List String) ≠ [] ∧
      create_task emptyDB normTagsInput 5 =
        Except.ok ((createOk emptyDB normTagsInput 5).1,
          (createOk emptyDB normTagsInput 5).2)) ∧
    ((createOk emptyDB normTagsInput 5).2.tags =
        ((["Work", " urgent "].map normalizeTag).filter (fun n => !(n == ""))) ∧
      (createOk emptyDB normTagsInput 5).2.tags.Nodup) := by
  refine ⟨⟨by decide, by decide, by decide⟩, ?_, ?_⟩
  · exact (tag_roundtrip_normalized emptyDB normTagsInput 5 ["Work", " urgent "]
      (createOk emptyDB normTagsInput 5).1 (createOk emptyDB normTagsInput 5).2
      (by decide) (by decide) (by decide)).1.1
  · exact (tag_roundtrip_normalized emptyDB normTagsInput 5 ["Work", " urgent "]
      (createOk emptyDB normTagsInput 5).1 (createOk emptyDB normTagsInput 5).2
      (by decide) (by decide) (by decide)).1.2.1


/-- **C6 counterexample**: the claim fails as stated — the code orders only
by `created_at` descending with no tiebreak.  With five tasks sharing one
creation tick, both the insertion order and its reverse are valid engine
orderings of the same filtered rows, and cutting the three `limit=2` pages at
offsets 0, 2, 4 from such orderings does not partition the five tasks: the
concatenation of the pages is not a permutation of them. -/
theorem pagination_tiebreak_counterexample :
    EngineOrdering (filteredTasks db5 none none none) db5.tasks ∧
    EngineOrdering (filteredTasks db5 none none none) db5.tasks.reverse ∧
    ¬ (pageOf db5.tasks 0 2 ++ pageOf db5.tasks.reverse 2 2 ++
        pageOf db5.tasks 4 2).Perm (filteredTasks db5 none none none) := by
  refine ⟨⟨by decide, ?_⟩, ⟨by decide, ?_⟩, by decide⟩ <;>
  · unfold SortedByCreatedDesc
    decide

/-- **C6 amended**: the listing sorts by `created_at` descending only, with
no tiebreak in the code; whenever the five matching tasks have pairwise
distinct creation times every engine ordering coincides, and the three pages
`limit=2`, `offset ∈ {0,2,4}` partition the five tasks without overlap or
omission. -/
theorem pagination_partition_distinct_times (db : DB) (c : Option Bool)
    (p : Option Int) (tg : Option String) (l₁ l₂ l₃ : List Task)
    (hlen : (filteredTasks db c p tg).length = 5)
    (hkeys : ((filteredTasks db c p tg).map Task.created_at).Nodup)
    (h1 : EngineOrdering (filteredTasks db c p tg) l₁)
    (h2 : EngineOrdering (filteredTasks db c p tg) l₂)
    (h3 : EngineOrdering (filteredTasks db c p tg) l₃) :
    (pageOf l₁ 0 2 ++ pageOf l₂ 2 2 ++ pageOf l₃ 4 2).Perm
      (filteredTasks db c p tg) := by
  obtain ⟨hp1, hs1⟩ := h1
  obtain ⟨hp2, hs2⟩ := h2
  obtain ⟨hp3, hs3⟩ := h3
  have hk1 : (l₁.map Task.created_at).Nodup :=
    ((hp1.map Task.created_at).nodup_iff).mpr hkeys
  have hk2 : (l₂.map Task.created_at).Nodup :=
    ((hp2.map Task.created_at).nodup_iff).mpr hkeys
  have e2 : l₂ = l₁ := sorted_perm_eq (hp2.trans hp1.symm) hs2 hs1 hk2
  have e3 : l₃ = l₁ := sorted_perm_eq (hp3.trans hp1.symm) hs3 hs1
    (((hp3.map Task.created_at).nodup_iff).mpr hkeys)
  rw [e2, e3]
  have hl5 : l₁.length = 5 := hp1.length_eq.trans hlen
  have h42 : pageOf l₁ 4 2 = l₁.drop 4 :=
    List.take_of_length_le (by simp [hl5])
  have key : pageOf l₁ 0 2 ++ (pageOf l₁ 2 2 ++ pageOf l₁ 4 2) = l₁ := by
    have h24 : l₁.drop 4 = (l₁.drop 2).drop 2 := by rw [List.drop_drop]
    rw [pageOf, pageOf, List.drop_zero, h42, h24, List.take_append_drop,
      List.take_append_drop]
  rw [List.append_assoc, key]
  exact hp1

/-- Witness: five tasks created at distinct ticks, paged through the concrete
sort, partition exactly. -/
theorem pagination_partition_distinct_times_witness :
    ((filteredTasks db5d none none none).length = 5 ∧
      ((filteredTasks db5d none none none).map Task.created_at).Nodup) ∧
    (pageOf (sortByCreatedDesc (filteredTasks db5d none none none)) 0 2 ++
      pageOf (sortByCreatedDesc (filteredTasks db5d none none none)) 2 2 ++
      pageOf (sortByCreatedDesc (filteredTasks db5d none none none)) 4 2).Perm
      (filteredTasks db5d none none none) :=
  ⟨⟨by decide, by decide⟩,
    pagination_partition_distinct_times db5d none none none _ _ _
      (by decide) (by decide) (engineOrdering_sort _) (engineOrdering_sort _)
      (engineOrdering_sort _)⟩


/-- **C7**: across every operation of the API surface (create, get, list,
partial update, soft delete) no task with `is_deleted = true` ever has the
flag reset: in any well-formed state in which every task carrying an id is
deleted, the next state keeps every task with that id deleted, and a partial
update addressed to that id is rejected with 404 (`TaskUpdate` carries no
`is_deleted` field, and the update handler never selects a soft-deleted
row). -/
theorem no_undelete (db : DB) (op : Op) (i : Nat) (hwf : WFdb db)
    (hex : ∃ t ∈ db.tasks, t.id = i ∧ t.is_deleted = true)
    (hall : ∀ t ∈ db.tasks, t.id = i → t.is_deleted = true) :
    (∀ t2 ∈ (step db op).tasks, t2.id = i → t2.is_deleted = true) ∧
    (∀ u now, update_task db i u now = Except.error (notFoundError i)) := by
  have hupd : ∀ u now,
      update_task db i u now = Except.error (notFoundError i) := by
    intro u now
    have hnone : patchFirst (fun t => t.id == i && !t.is_deleted)
        (fun t => applyUpdate db.tagNames t u now) db.tasks = none := by
      apply patchFirst_eq_none.mpr
      intro x hx
      by_cases hxi : x.id = i
      · simp [hxi, hall x hx hxi]
      · simp [hxi]
    unfold update_task
    rw [hnone]
  refine ⟨?_, hupd⟩
  cases op with
  | getOp task_id => exact hall
  | listOp c p tg limit offset => exact hall
  | createOp data today now =>
    intro t2 ht2 hid2
    simp only [step] at ht2
    split at ht2
    · cases hres : create_task db data now with
      | error e => rw [hres] at ht2; exact hall t2 ht2 hid2
      | ok r =>
        rw [hres] at ht2
        obtain ⟨htasks, hidnew, -⟩ :=
          @create_task_ok db data now r.1 r.2 (by rw [hres])
        rw [htasks] at ht2
        rcases List.mem_append.mp ht2 with hmem | hnew
        · exact hall t2 hmem hid2
        · exfalso
          obtain ⟨t0, ht0, hid0, -⟩ := hex
          have hlt := hwf t0 ht0
          rw [hid0] at hlt
          rw [List.mem_singleton] at hnew
          rw [hnew] at hid2
          rw [hidnew] at hid2
          omega
    · exact hall t2 ht2 hid2
  | updateOp task_id data today now =>
    intro t2 ht2 hid2
    simp only [step] at ht2
    split at ht2
    · cases hres : update_task db task_id data now with
      | error e => rw [hres] at ht2; exact hall t2 ht2 hid2
      | ok r =>
        rw [hres] at ht2
        obtain ⟨l₁, told, l₂, hl, hidold, hdelold, ht', htasks⟩ :=
          update_task_ok (by rw [hres])
        rw [htasks] at ht2
        rcases List.mem_append.mp ht2 with h1 | h2
        · exact hall t2 (by rw [hl]; exact List.mem_append_left _ h1) hid2
        · rcases List.mem_cons.mp h2 with rfl | h3
          · exfalso
            have hmem : told ∈ db.tasks := by rw [hl]; simp
            rw [ht', applyUpdate_spec] at hid2
            simp only at hid2
            have := hall told hmem hid2
            rw [hdelold] at this
            exact Bool.false_ne_true this
          · exact hall t2
              (by rw [hl]
                  exact List.mem_append_right _ (List.mem_cons_of_mem _ h3))
              hid2
    · exact hall t2 ht2 hid2
  | deleteOp task_id now =>
    intro t2 ht2 hid2
    simp only [step] at ht2
    cases hres : delete_task db task_id now with
    | error e => rw [hres] at ht2; exact hall t2 ht2 hid2
    | ok db2 =>
      rw [hres] at ht2
      obtain ⟨l₁, told, l₂, hl, hidold, hdelold, htasks⟩ :=
        delete_task_ok (by rw [hres])
      rw [htasks] at ht2
      rcases List.mem_append.mp ht2 with h1 | h2
      · exact hall t2 (by rw [hl]; exact List.mem_append_left _ h1) hid2
      · rcases List.mem_cons.mp h2 with rfl | h3
        · rfl
        · exact hall t2
            (by rw [hl]
                exact List.mem_append_right _ (List.mem_cons_of_mem _ h3))
            hid2

/-- Witness: on the store holding one soft-deleted task, an attempted patch
leaves the flag set and the update call itself answers 404. -/
theorem no_undelete_witness :
    (WFdb dbOneDel ∧
      (∃ t ∈ dbOneDel.tasks, t.id = 1 ∧ t.is_deleted = true) ∧
      (∀ t ∈ dbOneDel.tasks, t.id = 1 → t.is_deleted = true)) ∧
    (∀ t2 ∈ (step dbOneDel (Op.updateOp 1 titleNullUpdate 0 5)).tasks,
      t2.id = 1 → t2.is_deleted = true) ∧
    (∀ u now, update_task dbOneDel 1 u now =
      Except.error (notFoundError 1)) := by
  refine ⟨⟨?_, by decide, by decide⟩, ?_⟩
  · unfold WFdb
    decide
  · exact no_undelete dbOneDel (Op.updateOp 1 titleNullUpdate 0 5) 1
      (by unfold WFdb; decide) (by decide) (by decide)


set_option maxRecDepth 4000 in
/-- **C8**: creation validation rejects priority 0 and priority 6 with the
field name `priority` in the error details map, rejects a 201-character
title, rejects a `due_date` equal to yesterday, and accepts a `due_date`
equal to today (comparison against the current date at write time). -/
theorem boundary_validation (today : Nat) (h : 1 ≤ today) :
    ("priority" ∈ (createValidationErrors
      { mkCreate "Test Task" with priority := 0, due_date := today }
      today).map Prod.fst) ∧
    ("priority" ∈ (createValidationErrors
      { mkCreate "Test Task" with priority := 6, due_date := today }
      today).map Prod.fst) ∧
    (createValidationErrors
      { mkCreate (mkTitle 201) with due_date := today } today ≠ []) ∧
    ("due_date" ∈ (createValidationErrors
      { mkCreate "Test Task" with due_date := today - 1 }
      today).map Prod.fst) ∧
    (createValidationErrors
      { mkCreate "Test Task" with due_date := today } today = []) := by
  have hlen9 : ("Test Task" : String).length = 9 := by decide
  have hlen201 : (mkTitle 201).length = 201 := by decide
  have h0 : ¬ (today < today) := Nat.lt_irrefl today
  have h1y : today - 1 < today :=
    Nat.sub_lt (Nat.lt_of_lt_of_le Nat.zero_lt_one h) Nat.zero_lt_one
  refine ⟨?_, ?_, ?_, ?_, ?_⟩ <;>
    simp [createValidationErrors, mkCreate, hlen9, hlen201, h0, h1y]

/-- Witness: the boundary checks instantiated at `today = 1`. -/
theorem boundary_validation_witness :
    (1 ≤ 1) ∧
    ("priority" ∈ (createValidationErrors
      { mkCreate "Test Task" with priority := 0, due_date := 1 }
      1).map Prod.fst) ∧
    (createValidationErrors
      { mkCreate "Test Task" with due_date := 1 } 1 = []) :=
  ⟨by decide, (boundary_validation 1 (by decide)).1,
    (boundary_validation 1 (by decide)).2.2.2.2⟩

end MediVue
